import Mathlib

set_option maxHeartbeats 1000000

/-!
Verification of the extraction engine in `src/ingestion/code_parser.py`.

The Python code walks an `ast` syntax tree (produced by the external parser)
and emits `CodeElement` records for the file, each class, each method that is
a direct child of a class body, and each top-level function.  We embed the
fragment of the Python AST that the code inspects, together with the exact
traversal (`ast.walk` is breadth-first), and restate each component:
`parse_file`, `_create_file_element`, `_create_class_element`,
`_create_function_element`, `_calculate_complexity`, `_is_top_level`,
`_should_skip_file`, `parse_repository`.

Newlines are modelled as a single `\n` character (Unix line endings), and
the values the code obtains from `ast.unparse` (annotations, base classes)
are carried as pre-rendered source strings, since the code only ever treats
them as opaque text.
-/

/-- Mirrors `ast.arg`: a parameter name plus an optional type annotation.
The annotation is carried as its `ast.unparse`d source text (field `ann`),
which is all the Python code ever uses it for. -/
structure Arg where
  arg : String
  ann : Option String
deriving DecidableEq

/-- Mirrors `ast.arguments`.  The Python code reads only the `args` field
(plain positional-or-keyword parameters); the remaining fields exist on the
Python object but are never consulted. -/
structure Arguments where
  posonlyargs : List Arg
  args : List Arg
  vararg : Option Arg
  kwonlyargs : List Arg
  kw_defaults : List (Option String)
  kwarg : Option Arg
  defaults : List String
deriving DecidableEq

def emptyArguments : Arguments := ⟨[], [], none, [], [], none, []⟩

/-- The fragment of the Python AST that `code_parser.py` dispatches on.
Every node kind the code never mentions (`Assign`, `Return`, expressions,
…) is represented by `other`; `boolOp` keeps its operand list because
`_calculate_complexity` reads `len(child.values)`.  Docstrings are carried
as the result of `ast.get_docstring` on the node.  Positions (`lineno`,
`end_lineno`) are the parser-assigned 1-based line numbers. -/
inductive Node where
  | module (body : List Node) (docstring : Option String)
  | classDef (name : String) (bases : List String) (body : List Node)
      (lineno : Nat) (end_lineno : Nat) (docstring : Option String)
  | functionDef (name : String) (args : Arguments) (returns : Option String)
      (body : List Node) (lineno : Nat) (end_lineno : Nat) (docstring : Option String)
  | importStmt (names : List String)
  | importFrom (moduleName : Option String)
  | ifStmt (children : List Node)
  | whileStmt (children : List Node)
  | forStmt (children : List Node)
  | exceptHandler (children : List Node)
  | boolOp (values : List Node)
  | other (children : List Node)

/-- `ast.iter_child_nodes`, restricted to the children our node kinds carry. -/
def Node.children : Node → List Node
  | .module b _ => b
  | .classDef _ _ b _ _ _ => b
  | .functionDef _ _ _ b _ _ _ => b
  | .importStmt _ => []
  | .importFrom _ => []
  | .ifStmt c => c
  | .whileStmt c => c
  | .forStmt c => c
  | .exceptHandler c => c
  | .boolOp v => v
  | .other c => c

/-- Python attribute `node.name` (classes and functions). -/
def Node.name : Node → String
  | .classDef n _ _ _ _ _ => n
  | .functionDef n _ _ _ _ _ _ => n
  | _ => ""

/-- Python attribute `node.bases` (classes), each base pre-rendered by
`ast.unparse`. -/
def Node.bases : Node → List String
  | .classDef _ b _ _ _ _ => b
  | _ => []

/-- Python attribute `node.args` (functions). -/
def Node.args : Node → Arguments
  | .functionDef _ a _ _ _ _ _ => a
  | _ => emptyArguments

/-- Python attribute `node.returns` (functions), pre-rendered by `ast.unparse`. -/
def Node.returns : Node → Option String
  | .functionDef _ _ r _ _ _ _ => r
  | _ => none

/-- Python attribute `node.lineno`. -/
def Node.lineno : Node → Nat
  | .classDef _ _ _ l _ _ => l
  | .functionDef _ _ _ _ l _ _ => l
  | _ => 0

/-- Python attribute `node.end_lineno`. -/
def Node.end_lineno : Node → Nat
  | .classDef _ _ _ _ e _ => e
  | .functionDef _ _ _ _ _ e _ => e
  | _ => 0

/-- `ast.get_docstring`. -/
def Node.docstring : Node → Option String
  | .module _ d => d
  | .classDef _ _ _ _ _ d => d
  | .functionDef _ _ _ _ _ _ d => d
  | _ => none

mutual

/-- Number of nodes in the subtree (used as traversal fuel). -/
def Node.size : Node → Nat
  | .module b _ => 1 + Node.sizeList b
  | .classDef _ _ b _ _ _ => 1 + Node.sizeList b
  | .functionDef _ _ _ b _ _ _ => 1 + Node.sizeList b
  | .importStmt _ => 1
  | .importFrom _ => 1
  | .ifStmt c => 1 + Node.sizeList c
  | .whileStmt c => 1 + Node.sizeList c
  | .forStmt c => 1 + Node.sizeList c
  | .exceptHandler c => 1 + Node.sizeList c
  | .boolOp v => 1 + Node.sizeList v
  | .other c => 1 + Node.sizeList c

def Node.sizeList : List Node → Nat
  | [] => 0
  | x :: xs => Node.size x + Node.sizeList xs

end

/-- Breadth-first traversal, level by level.  `ast.walk` pops from the front
of a deque and pushes each node's children to the back, which yields the
nodes exactly in level order; the fuel (one unit per level, bounded by the
node count) makes the recursion structural. -/
def walkGo : Nat → List Node → List Node
  | 0, _ => []
  | fuel + 1, l => l ++ walkGo fuel (l.flatMap Node.children)

/-- `ast.walk node`: the node itself and all descendants in breadth-first
order. -/
def Node.walk (n : Node) : List Node := walkGo n.size [n]

mutual

/-- Python `==` on AST nodes compares object identity; two distinct nodes of
one parse tree always differ in position or content, so structural equality
is the faithful counterpart for trees produced by the parser. -/
def Node.beq : Node → Node → Bool
  | .module b d, .module b' d' => Node.beqList b b' && d == d'
  | .classDef n bs b l e d, .classDef n' bs' b' l' e' d' =>
      n == n' && bs == bs' && Node.beqList b b' && l == l' && e == e' && d == d'
  | .functionDef n a r b l e d, .functionDef n' a' r' b' l' e' d' =>
      n == n' && a == a' && r == r' && Node.beqList b b' && l == l' && e == e' && d == d'
  | .importStmt ns, .importStmt ns' => ns == ns'
  | .importFrom m, .importFrom m' => m == m'
  | .ifStmt c, .ifStmt c' => Node.beqList c c'
  | .whileStmt c, .whileStmt c' => Node.beqList c c'
  | .forStmt c, .forStmt c' => Node.beqList c c'
  | .exceptHandler c, .exceptHandler c' => Node.beqList c c'
  | .boolOp v, .boolOp v' => Node.beqList v v'
  | .other c, .other c' => Node.beqList c c'
  | _, _ => false

def Node.beqList : List Node → List Node → Bool
  | [], [] => true
  | x :: xs, y :: ys => Node.beq x y && Node.beqList xs ys
  | _, _ => false

end

/-- Helper for `pySplitlines`: scan the character list, emitting a line at
each `\n`; the final partial line is emitted only when non-empty. -/
def splitlinesGo : List Char → List Char → List String
  | [], acc => if acc.isEmpty then [] else [String.mk acc.reverse]
  | c :: rest, acc =>
      if c = '\n' then String.mk acc.reverse :: splitlinesGo rest []
      else splitlinesGo rest (c :: acc)

/-- Python `str.splitlines` for `\n` line endings: `""` has no lines, a
trailing newline does not open a final empty line. -/
def pySplitlines (s : String) : List String := splitlinesGo s.data []

/-- Python `s[:n]` on a string. -/
def pyTake (s : String) (n : Nat) : String := String.mk (s.data.take n)

/-- Python `str.lower` (ASCII case folding, which is all the code relies on). -/
def pyLower (s : String) : String := String.mk (s.data.map Char.toLower)

/-- `pathlib.Path(p).name`: the final path component. -/
def pyPathName (p : String) : String :=
  ((p.data.splitOn '/').map String.mk).getLastD ""

/-- Helper for `strContains`. -/
def containsSub (sub : List Char) : List Char → Bool
  | [] => sub.isEmpty
  | c :: rest => sub.isPrefixOf (c :: rest) || containsSub sub rest

/-- Python `sub in s` on strings: substring containment. -/
def strContains (s sub : String) : Bool := containsSub sub.data s.data

/-- The `CodeElement` dataclass.  `complexity` defaults to `0` and `imports`
(after `__post_init__`) to the empty list, exactly as in the source. -/
structure CodeElement where
  type : String
  name : String
  content : String
  filepath : String
  start_line : Nat
  end_line : Nat
  docstring : Option String := none
  signature : Option String := none
  complexity : Int := 0
  imports : List String := []
deriving DecidableEq

/-- `CodeParser._create_file_element`. -/
def create_file_element (filepath source : String) (tree : Node) : CodeElement :=
  let docstring := Node.docstring tree
  let imports := (Node.walk tree).flatMap (fun node =>
    match node with
    | Node.importStmt names => names
    | Node.importFrom m => (match m with | some moduleName => [moduleName] | none => [])
    | _ => [])
  let summary := "# File: " ++ pyPathName filepath ++ "\n"
  let summary := summary ++
    (match docstring with
     | some d => "\"\"\"" ++ d ++ "\"\"\"\n\n"
     | none => "")
  let summary := summary ++ "Imports: " ++ String.intercalate ", " (imports.take 10) ++ "\n"
  let summary := summary ++
    (if source.length > 500 then pyTake source 500 ++ "..." else source)
  { type := "file"
    name := pyPathName filepath
    content := summary
    filepath := filepath
    start_line := 1
    end_line := (pySplitlines source).length
    docstring := docstring
    imports := imports }

/-- `CodeParser._create_class_element`. -/
def create_class_element (filepath source : String) (node : Node) : CodeElement :=
  let docstring := Node.docstring node
  let methods := (Node.children node).filterMap (fun item =>
    match item with
    | Node.functionDef n _ _ _ _ _ _ => some n
    | _ => none)
  let lines := pySplitlines source
  let class_source :=
    String.intercalate "\n" ((lines.drop (Node.lineno node - 1)).take
      (Node.end_lineno node - (Node.lineno node - 1)))
  let signature := "class " ++ Node.name node
  let signature := signature ++
    (if (Node.bases node).isEmpty then ""
     else "(" ++ String.intercalate ", " (Node.bases node) ++ ")")
  let signature := signature ++ ":"
  let summary := signature ++ "\n"
  let summary := summary ++
    (match docstring with
     | some d => "    \"\"\"" ++ d ++ "\"\"\"\n"
     | none => "")
  let _summary := summary ++ "\n    # Methods: " ++ String.intercalate ", " methods ++ "\n"
  { type := "class"
    name := Node.name node
    content := pyTake class_source 1000
    filepath := filepath
    start_line := Node.lineno node
    end_line := Node.end_lineno node
    docstring := docstring
    signature := some signature }

/-- `isinstance(child, (ast.If, ast.While, ast.For, ast.ExceptHandler))`. -/
def isBranchNode : Node → Bool
  | .ifStmt _ => true
  | .whileStmt _ => true
  | .forStmt _ => true
  | .exceptHandler _ => true
  | _ => false

/-- The body of the `for child in ast.walk(node)` loop in
`_calculate_complexity`: the `isinstance` chain adding 1 per branch node and
`len(child.values) - 1` per `BoolOp`. -/
def calcStep (complexity : Int) (child : Node) : Int :=
  if isBranchNode child then complexity + 1
  else
    match child with
    | Node.boolOp values => complexity + ((values.length : Int) - 1)
    | _ => complexity

/-- `CodeParser._calculate_complexity`: fold over `ast.walk(node)` starting
from the base complexity 1. -/
def calculate_complexity (node : Node) : Int :=
  (Node.walk node).foldl calcStep 1

/-- `CodeParser._create_function_element`. -/
def create_function_element (filepath source : String) (node : Node)
    (parent_class : Option String) : CodeElement :=
  let docstring := Node.docstring node
  let args := (Node.args node).args.map (fun arg =>
    arg.arg ++ (match arg.ann with | some a => ": " ++ a | none => ""))
  let signature := "def " ++ Node.name node ++ "(" ++ String.intercalate ", " args ++ ")"
  let signature := signature ++
    (match Node.returns node with | some r => " -> " ++ r | none => "")
  let signature := signature ++ ":"
  let lines := pySplitlines source
  let func_source :=
    String.intercalate "\n" ((lines.drop (Node.lineno node - 1)).take
      (Node.end_lineno node - (Node.lineno node - 1)))
  let complexity := calculate_complexity node
  let content := signature ++ "\n"
  let content := content ++
    (match docstring with
     | some d => "    \"\"\"" ++ d ++ "\"\"\"\n"
     | none => "")
  let content := content ++ func_source
  let name :=
    match parent_class with
    | some c => c ++ "." ++ Node.name node
    | none => Node.name node
  { type := "function"
    name := name
    content := content
    filepath := filepath
    start_line := Node.lineno node
    end_line := Node.end_lineno node
    docstring := docstring
    signature := some signature
    complexity := complexity }

/-- `CodeParser._is_top_level`: scans only the module's direct statement
list; Python's identity comparison is rendered by `Node.beq`. -/
def is_top_level (node : Node) (tree : Node) : Bool :=
  go (Node.children tree)
where
  go : List Node → Bool
    | [] => false
    | item :: rest =>
        if Node.beq item node then true
        else
          match item with
          | Node.classDef _ _ cbody _ _ _ =>
              if cbody.any (fun x => Node.beq x node) then false else go rest
          | _ => go rest

/-- The body of the `for item in node.body` loop inside `parse_file`'s
class branch: append a method element for each `FunctionDef` directly in
the class body. -/
def methodStep (filepath source cname : String)
    (elements : List CodeElement) (item : Node) : List CodeElement :=
  match item with
  | Node.functionDef _ _ _ _ _ _ _ =>
      elements ++ [create_function_element filepath source item (some cname)]
  | _ => elements

/-- The body of the `for node in ast.walk(tree)` loop in `parse_file`:
append a class element followed by its methods, or a top-level function's
element. -/
def parseStep (filepath source : String) (tree : Node)
    (elements : List CodeElement) (node : Node) : List CodeElement :=
  match node with
  | Node.classDef cname _ cbody _ _ _ =>
      cbody.foldl (methodStep filepath source cname)
        (elements ++ [create_class_element filepath source node])
  | Node.functionDef _ _ _ _ _ _ _ =>
      if is_top_level node tree then
        elements ++ [create_function_element filepath source node none]
      else elements
  | _ => elements

/-- `CodeParser.parse_file`, after the external parser succeeded: the loop
over `ast.walk(tree)` appending class elements (each immediately followed by
the function elements for the direct children of its body) and top-level
function elements to the list that starts with the file element. -/
def parse_file (filepath source : String) (tree : Node) : List CodeElement :=
  let file_element := create_file_element filepath source tree
  (Node.walk tree).foldl (parseStep filepath source tree) [file_element]

/-- A filesystem path, as its list of components; `pathlib` renders it by
joining with `/`. -/
structure PyPath where
  parts : List String
deriving DecidableEq

/-- `Path.name`. -/
def PyPath.name (p : PyPath) : String := p.parts.getLastD ""

/-- `str(path)`. -/
def PyPath.toStr (p : PyPath) : String := String.intercalate "/" p.parts

/-- `CodeParser._should_skip_file`; the file's byte size (`stat().st_size`)
is passed in, the only filesystem query the predicate makes. -/
def should_skip_file (filepath : PyPath) (size : Nat) (max_file_size_kb : Nat) : Bool :=
  if strContains (pyLower filepath.name) "test" then true
  else if ["__pycache__", "venv", ".venv", "env"].any
      (fun part => strContains filepath.toStr part) then true
  else if size > max_file_size_kb * 1024 then true
  else false

/-- Outcome of opening and parsing one file: the read may fail (an exception
escaping `parse_file`), `ast.parse` may fail (caught inside `parse_file`),
or both succeed yielding the source text and its tree. -/
inductive FileInput where
  | readError
  | parseError
  | parsed (source : String) (tree : Node)

/-- One candidate file of the repository traversal, with the byte size the
selector queries and the outcome of reading/parsing it. -/
structure RepoFile where
  path : PyPath
  size : Nat
  input : FileInput

/-- `parse_file` including its fallible front end: a `SyntaxError` is caught
inside and yields no elements plus one warning; a read failure escapes as an
exception. -/
def parse_file_io (filepath : String) : FileInput → Except String (List CodeElement × List String)
  | .readError => Except.error "read failure"
  | .parseError => Except.ok ([], ["Syntax error in " ++ filepath])
  | .parsed source tree => Except.ok (parse_file filepath source tree, [])

/-- The body of the `for py_file in repo_path.rglob(...)` loop in
`parse_repository`: skip filtered files, extend the accumulated elements on
success, and turn an escaping exception into one warning. -/
def processRepoFile (max_file_size_kb : Nat)
    (acc : List CodeElement × List String) (f : RepoFile) :
    List CodeElement × List String :=
  if should_skip_file f.path f.size max_file_size_kb then acc
  else
    match parse_file_io f.path.toStr f.input with
    | Except.ok (els, warns) => (acc.1 ++ els, acc.2 ++ warns)
    | Except.error e => (acc.1, acc.2 ++ ["Failed to parse " ++ f.path.toStr ++ ": " ++ e])

/-- `CodeParser.parse_repository`: the traversal order of `rglob` is the
order of `files`. -/
def parse_repository (max_file_size_kb : Nat) (files : List RepoFile) :
    List CodeElement × List String :=
  files.foldl (processRepoFile max_file_size_kb) ([], [])

/-! ### Specification-side definitions

These restate parts of the spec in the shape the claims use; the theorems
relate them to the source definitions above. -/

/-- The elements `parse_file` appends when `ast.walk` hands it `node`: a
class element immediately followed by the elements of the function
declarations in that class's own body, or one element per top-level
function. -/
def processNode (filepath source : String) (tree : Node) : Node → List CodeElement
  | n@(Node.classDef cname _ cbody _ _ _) =>
      create_class_element filepath source n ::
        cbody.filterMap (fun item =>
          match item with
          | Node.functionDef _ _ _ _ _ _ _ =>
              some (create_function_element filepath source item (some cname))
          | _ => none)
  | n@(Node.functionDef _ _ _ _ _ _ _) =>
      if is_top_level n tree then [create_function_element filepath source n none]
      else []
  | _ => []

/-- The function declarations one walked node contributes elements for:
the `FunctionDef`s in a class's direct body (paired with the class name),
or a `FunctionDef` passing the top-level check (paired with `none`). -/
def nodeFunctionDecls (tree : Node) : Node → List (Option String × Node)
  | Node.classDef cname _ cbody _ _ _ =>
      cbody.filterMap (fun item =>
        match item with
        | Node.functionDef _ _ _ _ _ _ _ => some (some cname, item)
        | _ => none)
  | n@(Node.functionDef _ _ _ _ _ _ _) =>
      if is_top_level n tree then [(none, n)] else []
  | _ => []

/-- All function declarations extraction emits elements for, in emission
order. -/
def functionDecls (tree : Node) : List (Option String × Node) :=
  (Node.walk tree).flatMap (nodeFunctionDecls tree)

def isFunctionDef : Node → Bool
  | .functionDef _ _ _ _ _ _ _ => true
  | _ => false

def isClassDef : Node → Bool
  | .classDef _ _ _ _ _ _ => true
  | _ => false

/-- The contribution one walked node makes to `_calculate_complexity`. -/
def contrib (child : Node) : Int :=
  if isBranchNode child then 1
  else
    match child with
    | Node.boolOp values => (values.length : Int) - 1
    | _ => 0

mutual

/-- §4.3 of the spec, first summand: the number of conditional branches,
loops, and exception-handler clauses anywhere in the subtree. -/
def branchCount : Node → Nat
  | .module b _ => branchCountList b
  | .classDef _ _ b _ _ _ => branchCountList b
  | .functionDef _ _ _ b _ _ _ => branchCountList b
  | .importStmt _ => 0
  | .importFrom _ => 0
  | .ifStmt c => 1 + branchCountList c
  | .whileStmt c => 1 + branchCountList c
  | .forStmt c => 1 + branchCountList c
  | .exceptHandler c => 1 + branchCountList c
  | .boolOp v => branchCountList v
  | .other c => branchCountList c

def branchCountList : List Node → Nat
  | [] => 0
  | x :: xs => branchCount x + branchCountList xs

end

mutual

/-- §4.3 of the spec, second summand: `N - 1` for every short-circuit
boolean combination of `N` operands anywhere in the subtree. -/
def boolOpExtra : Node → Int
  | .module b _ => boolOpExtraList b
  | .classDef _ _ b _ _ _ => boolOpExtraList b
  | .functionDef _ _ _ b _ _ _ => boolOpExtraList b
  | .importStmt _ => 0
  | .importFrom _ => 0
  | .ifStmt c => boolOpExtraList c
  | .whileStmt c => boolOpExtraList c
  | .forStmt c => boolOpExtraList c
  | .exceptHandler c => boolOpExtraList c
  | .boolOp v => ((v.length : Int) - 1) + boolOpExtraList v
  | .other c => boolOpExtraList c

def boolOpExtraList : List Node → Int
  | [] => 0
  | x :: xs => boolOpExtra x + boolOpExtraList xs

end

mutual

/-- The invariant `ast.parse` guarantees and `_calculate_complexity` relies
on: every `BoolOp` in the tree has at least two operands. -/
def wfBool : Node → Bool
  | .module b _ => wfBoolList b
  | .classDef _ _ b _ _ _ => wfBoolList b
  | .functionDef _ _ _ b _ _ _ => wfBoolList b
  | .importStmt _ => true
  | .importFrom _ => true
  | .ifStmt c => wfBoolList c
  | .whileStmt c => wfBoolList c
  | .forStmt c => wfBoolList c
  | .exceptHandler c => wfBoolList c
  | .boolOp v => decide (2 ≤ v.length) && wfBoolList v
  | .other c => wfBoolList c

def wfBoolList : List Node → Bool
  | [] => true
  | x :: xs => wfBool x && wfBoolList xs

end

mutual

/-- The position contract of the external parser: every declaration's line
span is 1-based, ordered, and within the source's `L` lines. -/
def wfPos (L : Nat) : Node → Bool
  | .module b _ => wfPosList L b
  | .classDef _ _ b l e _ =>
      decide (1 ≤ l) && decide (l ≤ e) && decide (e ≤ L) && wfPosList L b
  | .functionDef _ _ _ b l e _ =>
      decide (1 ≤ l) && decide (l ≤ e) && decide (e ≤ L) && wfPosList L b
  | .importStmt _ => true
  | .importFrom _ => true
  | .ifStmt c => wfPosList L c
  | .whileStmt c => wfPosList L c
  | .forStmt c => wfPosList L c
  | .exceptHandler c => wfPosList L c
  | .boolOp v => wfPosList L v
  | .other c => wfPosList L c

def wfPosList (L : Nat) : List Node → Bool
  | [] => true
  | x :: xs => wfPos L x && wfPosList L xs

end

/-- The File Selector rule exactly as the spec words it: base name contains
"test" case-insensitively, or some path component **equals** one of the
environment/cache markers, or the byte size exceeds the ceiling. -/
def selectorSpecExcludes (filepath : PyPath) (size : Nat) (max_file_size_kb : Nat) : Bool :=
  strContains (pyLower filepath.name) "test"
    || filepath.parts.any (fun c => ["__pycache__", "venv", ".venv", "env"].contains c)
    || size > max_file_size_kb * 1024

/-- `m` is a node of the subtree rooted at `n`. -/
inductive Occurs : Node → Node → Prop where
  | refl (n : Node) : Occurs n n
  | step {m c n : Node} : c ∈ Node.children n → Occurs m c → Occurs m n

/-- The structural per-subtree count that §4.3 describes, for one node. -/
def bcex (n : Node) : Int := (branchCount n : Int) + boolOpExtra n

/-- What the inner method loop appends for one class-body item. -/
def methodEmit (filepath source cname : String) (item : Node) : List CodeElement :=
  match item with
  | Node.functionDef _ _ _ _ _ _ _ =>
      [create_function_element filepath source item (some cname)]
  | _ => []

/-! ### Concrete fixtures used by witnesses and counterexamples -/

def sampleFn : Node := Node.functionDef "f" emptyArguments none [Node.other []] 1 2 none

def sampleTree : Node := Node.module [sampleFn] none

def sampleSrc : String := "def f():\n    return 1"

def nestedFn : Node := Node.functionDef "inner" emptyArguments none [Node.other []] 2 3 none

def outerFn : Node := Node.functionDef "outer" emptyArguments none [nestedFn] 1 3 none

def nestedTree : Node := Node.module [outerFn] none

def nestedSrc : String := "def outer():\n    def inner():\n        return 1"

def goodFile1 : RepoFile :=
  ⟨⟨["good1.py"]⟩, 10, FileInput.parsed "x = 1" (Node.module [Node.other []] none)⟩

def badFile : RepoFile := ⟨⟨["bad.py"]⟩, 10, FileInput.parseError⟩

def goodFile2 : RepoFile :=
  ⟨⟨["good2.py"]⟩, 10, FileInput.parsed "y = 2" (Node.module [Node.other []] none)⟩

/-! ### Traversal lemmas -/

theorem Node.size_pos (n : Node) : 1 ≤ n.size := by
  cases n <;> simp [Node.size]

theorem Node.size_eq (n : Node) : n.size = 1 + Node.sizeList n.children := by
  cases n <;> rfl

theorem sizeList_append (a b : List Node) :
    Node.sizeList (a ++ b) = Node.sizeList a + Node.sizeList b := by
  induction a with
  | nil => simp [Node.sizeList]
  | cons x xs ih => simp [Node.sizeList, ih]; omega

theorem sizeList_flatMap_children (l : List Node) :
    Node.sizeList (l.flatMap Node.children) + l.length = Node.sizeList l := by
  induction l with
  | nil => simp [Node.sizeList]
  | cons x xs ih =>
      simp only [List.flatMap_cons, sizeList_append, Node.sizeList, List.length_cons]
      have hx := Node.size_eq x
      omega

theorem walkGo_nil (fuel : Nat) : walkGo fuel [] = [] := by
  induction fuel with
  | zero => rfl
  | succ n ih => simpa [walkGo] using ih

theorem walkGo_succ (fuel : Nat) (l : List Node) :
    walkGo (fuel + 1) l = l ++ walkGo fuel (l.flatMap Node.children) := rfl

theorem mem_walkGo {m : Node} :
    ∀ {fuel : Nat} {l : List Node}, m ∈ walkGo fuel l → ∃ r ∈ l, Occurs m r := by
  intro fuel
  induction fuel with
  | zero => intro l h; simp [walkGo] at h
  | succ n ih =>
      intro l h
      rw [walkGo_succ, List.mem_append] at h
      rcases h with h | h
      · exact ⟨m, h, Occurs.refl m⟩
      · obtain ⟨r, hr, ho⟩ := ih h
        rw [List.mem_flatMap] at hr
        obtain ⟨p, hp, hc⟩ := hr
        exact ⟨p, hp, Occurs.step hc ho⟩

theorem occurs_of_mem_walk {m n : Node} (h : m ∈ Node.walk n) : Occurs m n := by
  obtain ⟨r, hr, ho⟩ := mem_walkGo h
  rw [List.mem_singleton] at hr
  exact hr ▸ ho

/-- A hereditary boolean predicate propagates from a node to every node of
its subtree. -/
theorem hered_occurs (P : Node → Bool)
    (hstep : ∀ n c, P n = true → c ∈ Node.children n → P c = true)
    {m n : Node} (ho : Occurs m n) : P n = true → P m = true := by
  induction ho with
  | refl => exact id
  | step hmem hocc ih => exact fun hn => ih (hstep _ _ hn hmem)

theorem wfBoolList_mem {l : List Node} {x : Node}
    (h : wfBoolList l = true) (hx : x ∈ l) : wfBool x = true := by
  induction l with
  | nil => cases hx
  | cons a as ih =>
      simp only [wfBoolList, Bool.and_eq_true] at h
      rcases List.mem_cons.mp hx with rfl | hx
      · exact h.1
      · exact ih h.2 hx

theorem wfBool_children {n c : Node} (h : wfBool n = true) (hc : c ∈ Node.children n) :
    wfBool c = true := by
  cases n with
  | boolOp v =>
      simp only [wfBool, Bool.and_eq_true] at h
      exact wfBoolList_mem h.2 hc
  | importStmt ns => simp [Node.children] at hc
  | importFrom m => simp [Node.children] at hc
  | module b d => exact wfBoolList_mem h hc
  | classDef a b c' d e f => exact wfBoolList_mem h hc
  | functionDef a b c' d e f g => exact wfBoolList_mem h hc
  | ifStmt c' => exact wfBoolList_mem h hc
  | whileStmt c' => exact wfBoolList_mem h hc
  | forStmt c' => exact wfBoolList_mem h hc
  | exceptHandler c' => exact wfBoolList_mem h hc
  | other c' => exact wfBoolList_mem h hc

theorem wfBool_of_occurs {m n : Node} (ho : Occurs m n) (h : wfBool n = true) :
    wfBool m = true :=
  hered_occurs wfBool (fun _ _ hn hc => wfBool_children hn hc) ho h

theorem wfPosList_mem {L : Nat} {l : List Node} {x : Node}
    (h : wfPosList L l = true) (hx : x ∈ l) : wfPos L x = true := by
  induction l with
  | nil => cases hx
  | cons a as ih =>
      simp only [wfPosList, Bool.and_eq_true] at h
      rcases List.mem_cons.mp hx with rfl | hx
      · exact h.1
      · exact ih h.2 hx

theorem wfPos_children {L : Nat} {n c : Node} (h : wfPos L n = true)
    (hc : c ∈ Node.children n) : wfPos L c = true := by
  cases n with
  | classDef a b c' d e f =>
      simp only [wfPos, Bool.and_eq_true] at h
      exact wfPosList_mem h.2 hc
  | functionDef a b c' d e f g =>
      simp only [wfPos, Bool.and_eq_true] at h
      exact wfPosList_mem h.2 hc
  | importStmt ns => simp [Node.children] at hc
  | importFrom m => simp [Node.children] at hc
  | module b d => exact wfPosList_mem h hc
  | ifStmt c' => exact wfPosList_mem h hc
  | whileStmt c' => exact wfPosList_mem h hc
  | forStmt c' => exact wfPosList_mem h hc
  | exceptHandler c' => exact wfPosList_mem h hc
  | boolOp v => exact wfPosList_mem h hc
  | other c' => exact wfPosList_mem h hc

theorem wfPos_of_occurs {L : Nat} {m n : Node} (ho : Occurs m n)
    (h : wfPos L n = true) : wfPos L m = true :=
  hered_occurs (wfPos L) (fun _ _ hn hc => wfPos_children hn hc) ho h

/-- If `n` occurs in `t`, so does every child of `n`. -/
theorem occurs_child {m n t : Node} (ho : Occurs n t) :
    m ∈ Node.children n → Occurs m t := by
  induction ho with
  | refl => exact fun hm => Occurs.step hm (Occurs.refl m)
  | step hmem hocc ih => exact fun hm => Occurs.step hmem (ih hm)

/-! ### The complexity fold over the walk equals the structural count -/

theorem calcStep_eq (c : Int) (x : Node) : calcStep c x = c + contrib x := by
  cases x <;> simp [calcStep, contrib, isBranchNode]

theorem foldl_calcStep (l : List Node) (init : Int) :
    l.foldl calcStep init = init + (l.map contrib).sum := by
  induction l generalizing init with
  | nil => simp
  | cons x xs ih =>
      rw [List.foldl_cons, calcStep_eq, ih]
      simp [List.map_cons, List.sum_cons]
      ring

/-- Sum of `bcex` over a list of nodes. -/
theorem map_bcex_sum (l : List Node) :
    (l.map bcex).sum = (branchCountList l : Int) + boolOpExtraList l := by
  induction l with
  | nil => simp [branchCountList, boolOpExtraList]
  | cons x xs ih =>
      simp only [List.map_cons, List.sum_cons, branchCountList, boolOpExtraList, ih, bcex]
      push_cast
      ring

theorem bcex_rec (n : Node) :
    bcex n = contrib n + ((Node.children n).map bcex).sum := by
  cases n <;>
    simp [bcex, branchCount, boolOpExtra, contrib, isBranchNode, Node.children,
      map_bcex_sum] <;>
    omega

theorem map_sum_flatMap_children (l : List Node) :
    (l.map contrib).sum + ((l.flatMap Node.children).map bcex).sum
      = (l.map bcex).sum := by
  induction l with
  | nil => simp
  | cons x xs ih =>
      simp only [List.flatMap_cons, List.map_append, List.sum_append, List.map_cons,
        List.sum_cons]
      rw [bcex_rec x]
      omega

theorem walkGo_contrib_sum :
    ∀ (fuel : Nat) (l : List Node), Node.sizeList l ≤ fuel →
      ((walkGo fuel l).map contrib).sum = (l.map bcex).sum := by
  intro fuel
  induction fuel with
  | zero =>
      intro l hl
      cases l with
      | nil => simp [walkGo]
      | cons x xs =>
          exfalso
          have := Node.size_pos x
          simp [Node.sizeList] at hl
          omega
  | succ n ih =>
      intro l hl
      rw [walkGo_succ, List.map_append, List.sum_append]
      have hsz : Node.sizeList (l.flatMap Node.children) ≤ n := by
        have h4 := sizeList_flatMap_children l
        cases l with
        | nil => simp [Node.sizeList]
        | cons x xs =>
            simp only [List.length_cons] at h4
            omega
      rw [ih _ hsz]
      exact map_sum_flatMap_children l

/-- `_calculate_complexity` computes 1 plus one per branch construct in the
subtree plus `N-1` per `N`-operand `BoolOp` in the subtree. -/
theorem calculate_complexity_char (n : Node) :
    calculate_complexity n = 1 + (branchCount n : Int) + boolOpExtra n := by
  have h1 : calculate_complexity n = 1 + ((Node.walk n).map contrib).sum :=
    foldl_calcStep (Node.walk n) 1
  have h2 := walkGo_contrib_sum n.size [n] (by simp [Node.sizeList])
  rw [h1, Node.walk, h2]
  simp [bcex]
  ring

/-- `boolOpExtra` is nonnegative on trees whose `BoolOp`s are well formed. -/
theorem boolOpExtra_nonneg {n : Node} (h : wfBool n = true) : 0 ≤ boolOpExtra n := by
  have key : ∀ (fuel : Nat) (m : Node), m.size ≤ fuel → wfBool m = true → 0 ≤ boolOpExtra m := by
    intro fuel
    induction fuel with
    | zero =>
        intro m hm
        exact absurd (Nat.le_trans (Node.size_pos m) hm) (by omega)
    | succ k ih =>
        intro m hm hwf
        have hlist : ∀ (l : List Node), Node.sizeList l ≤ k → wfBoolList l = true →
            0 ≤ boolOpExtraList l := by
          intro l
          induction l with
          | nil => intro _ _; simp [boolOpExtraList]
          | cons x xs ihl =>
              intro hs hw
              simp only [Node.sizeList] at hs
              simp only [wfBoolList, Bool.and_eq_true] at hw
              have h1 : 0 ≤ boolOpExtra x :=
                ih x (by have := Node.size_pos x; omega) hw.1
              have h2 : 0 ≤ boolOpExtraList xs := ihl (by have := Node.size_pos x; omega) hw.2
              simp only [boolOpExtraList]
              omega
        have hsz := Node.size_eq m
        cases m with
        | boolOp v =>
            simp only [wfBool, Bool.and_eq_true, decide_eq_true_eq] at hwf
            have h2 : 0 ≤ boolOpExtraList v := by
              apply hlist v _ hwf.2
              simp only [Node.size] at hm
              omega
            simp only [boolOpExtra]
            have : (2 : Int) ≤ (v.length : Int) := by exact_mod_cast hwf.1
            omega
        | module b d =>
            simp only [wfBool] at hwf
            simp only [boolOpExtra]
            exact hlist b (by simp only [Node.size] at hm; omega) hwf
        | classDef a b c dd e f =>
            simp only [wfBool] at hwf
            simp only [boolOpExtra]
            exact hlist c (by simp only [Node.size] at hm; omega) hwf
        | functionDef a b c dd e f g =>
            simp only [wfBool] at hwf
            simp only [boolOpExtra]
            exact hlist dd (by simp only [Node.size] at hm; omega) hwf
        | importStmt ns => simp [boolOpExtra]
        | importFrom mo => simp [boolOpExtra]
        | ifStmt c =>
            simp only [wfBool] at hwf
            simp only [boolOpExtra]
            exact hlist c (by simp only [Node.size] at hm; omega) hwf
        | whileStmt c =>
            simp only [wfBool] at hwf
            simp only [boolOpExtra]
            exact hlist c (by simp only [Node.size] at hm; omega) hwf
        | forStmt c =>
            simp only [wfBool] at hwf
            simp only [boolOpExtra]
            exact hlist c (by simp only [Node.size] at hm; omega) hwf
        | exceptHandler c =>
            simp only [wfBool] at hwf
            simp only [boolOpExtra]
            exact hlist c (by simp only [Node.size] at hm; omega) hwf
        | other c =>
            simp only [wfBool] at hwf
            simp only [boolOpExtra]
            exact hlist c (by simp only [Node.size] at hm; omega) hwf
  exact key n.size n (Nat.le_refl _) h

/-- On a well-formed tree the scorer returns at least the base complexity 1. -/
theorem calculate_complexity_pos {n : Node} (h : wfBool n = true) :
    1 ≤ calculate_complexity n := by
  rw [calculate_complexity_char]
  have h1 : (0 : Int) ≤ (branchCount n : Int) := Int.natCast_nonneg _
  have h2 := boolOpExtra_nonneg h
  omega

/-! ### `parse_file` as the file element followed by the per-node emissions -/

theorem foldl_append_flatMap {α β : Type} (f : List β → α → List β) (g : α → List β)
    (hf : ∀ acc x, f acc x = acc ++ g x) :
    ∀ (l : List α) (init : List β), l.foldl f init = init ++ l.flatMap g := by
  intro l
  induction l with
  | nil => intro init; simp
  | cons x xs ih =>
      intro init
      rw [List.foldl_cons, hf, ih, List.flatMap_cons, List.append_assoc]

theorem methodStep_eq (fp src c : String) (acc : List CodeElement) (item : Node) :
    methodStep fp src c acc item = acc ++ methodEmit fp src c item := by
  cases item <;> simp [methodStep, methodEmit]

theorem flatMap_methodEmit (fp src c : String) (l : List Node) :
    l.flatMap (methodEmit fp src c)
      = l.filterMap (fun item =>
          match item with
          | Node.functionDef _ _ _ _ _ _ _ =>
              some (create_function_element fp src item (some c))
          | _ => none) := by
  induction l with
  | nil => rfl
  | cons x xs ih =>
      cases x <;> simp [methodEmit, List.flatMap_cons, List.filterMap_cons, ih]

theorem parseStep_eq (fp src : String) (tree : Node) (acc : List CodeElement) (node : Node) :
    parseStep fp src tree acc node = acc ++ processNode fp src tree node := by
  cases node with
  | classDef cname bs cbody l e d =>
      simp only [parseStep, processNode]
      rw [foldl_append_flatMap (methodStep fp src cname) (methodEmit fp src cname)
        (methodStep_eq fp src cname), flatMap_methodEmit]
      simp
  | functionDef a b c d e f g =>
      simp only [parseStep, processNode]
      split <;> simp
  | module b d => simp [parseStep, processNode]
  | importStmt ns => simp [parseStep, processNode]
  | importFrom mo => simp [parseStep, processNode]
  | ifStmt c => simp [parseStep, processNode]
  | whileStmt c => simp [parseStep, processNode]
  | forStmt c => simp [parseStep, processNode]
  | exceptHandler c => simp [parseStep, processNode]
  | boolOp v => simp [parseStep, processNode]
  | other c => simp [parseStep, processNode]

/-- `parse_file` is the file element followed by the emissions for the
walked nodes, in walk order. -/
theorem parse_file_eq (fp src : String) (tree : Node) :
    parse_file fp src tree
      = create_file_element fp src tree
          :: (Node.walk tree).flatMap (processNode fp src tree) := by
  unfold parse_file
  rw [foldl_append_flatMap (parseStep fp src tree) (processNode fp src tree)
    (parseStep_eq fp src tree)]
  simp

/-- Characterization of the elements one walked node can emit. -/
theorem mem_processNode {fp src : String} {tree n : Node} {e : CodeElement}
    (h : e ∈ processNode fp src tree n) :
    (isClassDef n = true ∧ e = create_class_element fp src n) ∨
    (∃ pc m, isFunctionDef m = true ∧ (m = n ∨ m ∈ Node.children n) ∧
        e = create_function_element fp src m pc) := by
  cases n with
  | classDef cname bs cbody l en d =>
      simp only [processNode, List.mem_cons] at h
      rcases h with rfl | h
      · exact Or.inl ⟨rfl, rfl⟩
      · rw [List.mem_filterMap] at h
        obtain ⟨a, ha, hsome⟩ := h
        cases a with
        | functionDef fn fa fr fb fl fe fd =>
            right
            refine ⟨some cname, Node.functionDef fn fa fr fb fl fe fd, rfl,
              Or.inr (by simpa [Node.children] using ha), ?_⟩
            injection hsome with h'
            exact h'.symm
        | module b d => cases hsome
        | classDef a1 a2 a3 a4 a5 a6 => cases hsome
        | importStmt ns => cases hsome
        | importFrom mo => cases hsome
        | ifStmt c => cases hsome
        | whileStmt c => cases hsome
        | forStmt c => cases hsome
        | exceptHandler c => cases hsome
        | boolOp v => cases hsome
        | other c => cases hsome
  | functionDef fn fa fr fb fl fe fd =>
      simp only [processNode] at h
      split at h
      · rw [List.mem_singleton] at h
        exact Or.inr ⟨none, Node.functionDef fn fa fr fb fl fe fd, rfl, Or.inl rfl, h⟩
      · cases h
  | module b d => simp [processNode] at h
  | importStmt ns => simp [processNode] at h
  | importFrom mo => simp [processNode] at h
  | ifStmt c => simp [processNode] at h
  | whileStmt c => simp [processNode] at h
  | forStmt c => simp [processNode] at h
  | exceptHandler c => simp [processNode] at h
  | boolOp v => simp [processNode] at h
  | other c => simp [processNode] at h

/-! ### Projection facts for the three element constructors -/

theorem file_element_type (fp src : String) (t : Node) :
    (create_file_element fp src t).type = "file" := rfl

theorem file_element_complexity (fp src : String) (t : Node) :
    (create_file_element fp src t).complexity = 0 := rfl

theorem file_element_lines (fp src : String) (t : Node) :
    (create_file_element fp src t).start_line = 1 ∧
      (create_file_element fp src t).end_line = (pySplitlines src).length := ⟨rfl, rfl⟩

theorem class_element_type (fp src : String) (n : Node) :
    (create_class_element fp src n).type = "class" := rfl

theorem class_element_complexity (fp src : String) (n : Node) :
    (create_class_element fp src n).complexity = 0 := rfl

theorem class_element_lines (fp src : String) (n : Node) :
    (create_class_element fp src n).start_line = Node.lineno n ∧
      (create_class_element fp src n).end_line = Node.end_lineno n := ⟨rfl, rfl⟩

theorem function_element_type (fp src : String) (n : Node) (pc : Option String) :
    (create_function_element fp src n pc).type = "function" := rfl

theorem function_element_complexity (fp src : String) (n : Node) (pc : Option String) :
    (create_function_element fp src n pc).complexity = calculate_complexity n := rfl

theorem function_element_lines (fp src : String) (n : Node) (pc : Option String) :
    (create_function_element fp src n pc).start_line = Node.lineno n ∧
      (create_function_element fp src n pc).end_line = Node.end_lineno n := ⟨rfl, rfl⟩

theorem function_element_name (fp src : String) (n : Node) (pc : Option String) :
    (create_function_element fp src n pc).name
      = (match pc with
         | some c => c ++ "." ++ Node.name n
         | none => Node.name n) := by
  cases pc <;> rfl

/-! ### List sums of the structural counters over appends -/

theorem branchCountList_append (a b : List Node) :
    branchCountList (a ++ b) = branchCountList a + branchCountList b := by
  induction a with
  | nil => simp [branchCountList]
  | cons x xs ih => simp [branchCountList, ih]; omega

theorem boolOpExtraList_append (a b : List Node) :
    boolOpExtraList (a ++ b) = boolOpExtraList a + boolOpExtraList b := by
  induction a with
  | nil => simp [boolOpExtraList]
  | cons x xs ih => simp [boolOpExtraList, ih]; omega

/-! ### Filtering the emitted elements down to the function elements -/

theorem filter_flatMap_nodes (p : CodeElement → Bool) (g : Node → List CodeElement)
    (l : List Node) :
    (l.flatMap g).filter p = l.flatMap (fun n => (g n).filter p) := by
  induction l with
  | nil => rfl
  | cons x xs ih => simp [List.flatMap_cons, List.filter_append, ih]

theorem filterMap_method_create (fp src cname : String) (l : List Node) :
    l.filterMap (fun item =>
        match item with
        | Node.functionDef _ _ _ _ _ _ _ =>
            some (create_function_element fp src item (some cname))
        | _ => none)
      = (l.filterMap (fun item =>
          match item with
          | Node.functionDef _ _ _ _ _ _ _ => some (some cname, item)
          | _ => none)).map (fun pm => create_function_element fp src pm.2 pm.1) := by
  induction l with
  | nil => rfl
  | cons x xs ih => cases x <;> simp [List.filterMap_cons, ih]

theorem filter_function_filterMap (fp src cname : String) (l : List Node) :
    ((l.filterMap (fun item =>
        match item with
        | Node.functionDef _ _ _ _ _ _ _ =>
            some (create_function_element fp src item (some cname))
        | _ => none)).filter (fun e => e.type == "function"))
      = l.filterMap (fun item =>
          match item with
          | Node.functionDef _ _ _ _ _ _ _ =>
              some (create_function_element fp src item (some cname))
          | _ => none) := by
  induction l with
  | nil => rfl
  | cons x xs ih =>
      cases x <;> simp [List.filterMap_cons, List.filter_cons, ih, function_element_type]

theorem processNode_filter_function (fp src : String) (tree n : Node) :
    (processNode fp src tree n).filter (fun e => e.type == "function")
      = (nodeFunctionDecls tree n).map (fun pm => create_function_element fp src pm.2 pm.1) := by
  cases n with
  | classDef cname bs cbody l e d =>
      simp only [processNode, nodeFunctionDecls, List.filter_cons]
      rw [filter_function_filterMap, filterMap_method_create]
      simp [class_element_type]
  | functionDef a b c d e f g =>
      simp only [processNode, nodeFunctionDecls]
      split <;> simp [function_element_type]
  | module b d => rfl
  | importStmt ns => rfl
  | importFrom mo => rfl
  | ifStmt c => rfl
  | whileStmt c => rfl
  | forStmt c => rfl
  | exceptHandler c => rfl
  | boolOp v => rfl
  | other c => rfl

/-! ### Repository-level lemmas -/

theorem processRepoFile_shape (kb : Nat) (acc : List CodeElement × List String) (f : RepoFile) :
    processRepoFile kb acc f
      = (acc.1 ++ (processRepoFile kb ([], []) f).1,
         acc.2 ++ (processRepoFile kb ([], []) f).2) := by
  rcases f with ⟨p, sz, inp⟩
  cases inp <;> simp only [processRepoFile, parse_file_io] <;> split <;> simp

theorem foldl_repo_shape (kb : Nat) :
    ∀ (l : List RepoFile) (acc : List CodeElement × List String),
      l.foldl (processRepoFile kb) acc
        = (acc.1 ++ (l.foldl (processRepoFile kb) ([], [])).1,
           acc.2 ++ (l.foldl (processRepoFile kb) ([], [])).2) := by
  intro l
  induction l with
  | nil => intro acc; simp
  | cons f fs ih =>
      intro acc
      rw [List.foldl_cons, List.foldl_cons]
      rw [ih (processRepoFile kb acc f), ih (processRepoFile kb ([], []) f)]
      rw [processRepoFile_shape kb acc f]
      simp [List.append_assoc]

theorem parse_repository_append (kb : Nat) (xs ys : List RepoFile) :
    parse_repository kb (xs ++ ys)
      = ((parse_repository kb xs).1 ++ (parse_repository kb ys).1,
         (parse_repository kb xs).2 ++ (parse_repository kb ys).2) := by
  unfold parse_repository
  rw [List.foldl_append]
  exact foldl_repo_shape kb ys _

theorem parse_repository_cons (kb : Nat) (f : RepoFile) (fs : List RepoFile) :
    parse_repository kb (f :: fs)
      = ((parse_repository kb [f]).1 ++ (parse_repository kb fs).1,
         (parse_repository kb [f]).2 ++ (parse_repository kb fs).2) := by
  have h := parse_repository_append kb [f] fs
  simpa using h

/-- A non-skipped file whose read or parse fails contributes no elements
and exactly one warning. -/
theorem parse_repository_failed (kb : Nat) (bad : RepoFile)
    (hskip : should_skip_file bad.path bad.size kb = false)
    (hbad : bad.input = FileInput.parseError ∨ bad.input = FileInput.readError) :
    (parse_repository kb [bad]).1 = [] ∧ (parse_repository kb [bad]).2.length = 1 := by
  rcases hbad with hbad | hbad <;>
    simp [parse_repository, processRepoFile, parse_file_io, hskip, hbad]

/-- Extract the position bounds from `wfPos` for a class or function node. -/
theorem wfPos_bounds {L : Nat} {n : Node} (h : wfPos L n = true)
    (hk : isClassDef n = true ∨ isFunctionDef n = true) :
    1 ≤ Node.lineno n ∧ Node.lineno n ≤ Node.end_lineno n ∧ Node.end_lineno n ≤ L := by
  cases n with
  | classDef a b c l e d =>
      simp only [wfPos, Bool.and_eq_true, decide_eq_true_eq] at h
      exact ⟨h.1.1.1, h.1.1.2, h.1.2⟩
  | functionDef a b c dd l e d =>
      simp only [wfPos, Bool.and_eq_true, decide_eq_true_eq] at h
      exact ⟨h.1.1.1, h.1.1.2, h.1.2⟩
  | module b d => simp [isClassDef, isFunctionDef] at hk
  | importStmt ns => simp [isClassDef, isFunctionDef] at hk
  | importFrom mo => simp [isClassDef, isFunctionDef] at hk
  | ifStmt c => simp [isClassDef, isFunctionDef] at hk
  | whileStmt c => simp [isClassDef, isFunctionDef] at hk
  | forStmt c => simp [isClassDef, isFunctionDef] at hk
  | exceptHandler c => simp [isClassDef, isFunctionDef] at hk
  | boolOp v => simp [isClassDef, isFunctionDef] at hk
  | other c => simp [isClassDef, isFunctionDef] at hk

theorem map_flatMap_decls (fp src : String) (tree : Node) (l : List Node) :
    (l.flatMap (nodeFunctionDecls tree)).map
        (fun pm => create_function_element fp src pm.2 pm.1)
      = l.flatMap (fun n => (nodeFunctionDecls tree n).map
          (fun pm => create_function_element fp src pm.2 pm.1)) := by
  induction l with
  | nil => rfl
  | cons x xs ih => simp [List.flatMap_cons, ih]

/-! ### The claims -/

/-- C1: the amended invariant.  For every element `parse_file` emits from a
well-formed tree, a Function element's complexity is at least 1, while File
and Class elements carry the dataclass default complexity, which is 0 (not
1 as the claim stated — see the counterexample). -/
theorem c1_complexity_invariant (fp src : String) (tree : Node) (e : CodeElement)
    (hwf : wfBool tree = true) (he : e ∈ parse_file fp src tree) :
    (e.type = "function" → 1 ≤ e.complexity) ∧
      ((e.type = "file" ∨ e.type = "class") → e.complexity = 0) := by
  rw [parse_file_eq, List.mem_cons] at he
  rcases he with rfl | he
  · refine ⟨?_, fun _ => file_element_complexity fp src tree⟩
    intro h
    rw [file_element_type] at h
    exact absurd h (by decide)
  · rw [List.mem_flatMap] at he
    obtain ⟨n, hn, hmem⟩ := he
    have hOn : Occurs n tree := occurs_of_mem_walk hn
    rcases mem_processNode hmem with ⟨_, rfl⟩ | ⟨pc, m, hfd, hm, rfl⟩
    · refine ⟨?_, fun _ => class_element_complexity fp src n⟩
      intro h
      rw [class_element_type] at h
      exact absurd h (by decide)
    · refine ⟨?_, ?_⟩
      · intro _
        rw [function_element_complexity]
        apply calculate_complexity_pos
        have hOm : Occurs m tree := by
          rcases hm with rfl | hm
          · exact hOn
          · exact occurs_child hOn hm
        exact wfBool_of_occurs hOm hwf
      · intro h
        rw [function_element_type] at h
        rcases h with h | h <;> exact absurd h (by decide)

/-- C1 witness: the invariant instantiated on a one-function module. -/
theorem c1_complexity_invariant_witness :
    wfBool sampleTree = true ∧
      create_function_element "a.py" sampleSrc sampleFn none
        ∈ parse_file "a.py" sampleSrc sampleTree ∧
      ((create_function_element "a.py" sampleSrc sampleFn none).type = "function" →
        1 ≤ (create_function_element "a.py" sampleSrc sampleFn none).complexity) ∧
      (((create_function_element "a.py" sampleSrc sampleFn none).type = "file" ∨
          (create_function_element "a.py" sampleSrc sampleFn none).type = "class") →
        (create_function_element "a.py" sampleSrc sampleFn none).complexity = 0) :=
  ⟨by decide, by decide,
    (c1_complexity_invariant "a.py" sampleSrc sampleTree _ (by decide) (by decide)).1,
    (c1_complexity_invariant "a.py" sampleSrc sampleTree _ (by decide) (by decide)).2⟩

/-- C1 counterexample: on an empty module the single extracted element (the
File element) has complexity 0, refuting both `complexity >= 1` for every
element and the claimed default of 1 for File elements. -/
theorem c1_default_complexity_cex :
    (parse_file "f.py" "" (Node.module [] none)).map (fun e => (e.type, e.complexity))
      = [("file", 0)] := by decide

/-- C2: `parse_file` emits exactly one element of kind `file`; it is the
head of the result, and its `end_line` is the number of lines of the source
(`len(source.splitlines())`). -/
theorem c2_unique_file_element (fp src : String) (tree : Node) :
    (parse_file fp src tree).countP (fun e => e.type == "file") = 1 ∧
      (parse_file fp src tree).head? = some (create_file_element fp src tree) ∧
      (create_file_element fp src tree).end_line = (pySplitlines src).length := by
  refine ⟨?_, ?_, rfl⟩
  · rw [parse_file_eq, List.countP_cons]
    have hz : List.countP (fun e => e.type == "file")
        ((Node.walk tree).flatMap (processNode fp src tree)) = 0 := by
      rw [List.countP_eq_zero]
      intro e he
      rw [List.mem_flatMap] at he
      obtain ⟨n, _, hmem⟩ := he
      rcases mem_processNode hmem with ⟨_, rfl⟩ | ⟨pc, m, _, _, rfl⟩
      · simp [class_element_type]
      · simp [function_element_type]
    rw [hz]
    simp [file_element_type]
  · rw [parse_file_eq]
    rfl

/-- C3: the amended bounds.  For a source with at least one line and a tree
respecting the parser's position contract, every emitted element satisfies
`1 ≤ start_line ≤ end_line ≤ line count` (the original claim fails on the
empty file — see the counterexample). -/
theorem c3_line_bounds (fp src : String) (tree : Node) (e : CodeElement)
    (hL : 1 ≤ (pySplitlines src).length)
    (hwf : wfPos (pySplitlines src).length tree = true)
    (he : e ∈ parse_file fp src tree) :
    1 ≤ e.start_line ∧ e.start_line ≤ e.end_line ∧
      e.end_line ≤ (pySplitlines src).length := by
  rw [parse_file_eq, List.mem_cons] at he
  rcases he with rfl | he
  · obtain ⟨h1, h2⟩ := file_element_lines fp src tree
    rw [h1, h2]
    exact ⟨Nat.le_refl 1, hL, Nat.le_refl _⟩
  · rw [List.mem_flatMap] at he
    obtain ⟨n, hn, hmem⟩ := he
    have hOn : Occurs n tree := occurs_of_mem_walk hn
    rcases mem_processNode hmem with ⟨hcd, rfl⟩ | ⟨pc, m, hfd, hm, rfl⟩
    · obtain ⟨h1, h2⟩ := class_element_lines fp src n
      rw [h1, h2]
      exact wfPos_bounds (wfPos_of_occurs hOn hwf) (Or.inl hcd)
    · obtain ⟨h1, h2⟩ := function_element_lines fp src m pc
      rw [h1, h2]
      have hOm : Occurs m tree := by
        rcases hm with rfl | hm
        · exact hOn
        · exact occurs_child hOn hm
      exact wfPos_bounds (wfPos_of_occurs hOm hwf) (Or.inr hfd)

/-- C3 witness: the bounds instantiated on a one-function module. -/
theorem c3_line_bounds_witness :
    1 ≤ (pySplitlines sampleSrc).length ∧
      wfPos (pySplitlines sampleSrc).length sampleTree = true ∧
      create_function_element "a.py" sampleSrc sampleFn none
        ∈ parse_file "a.py" sampleSrc sampleTree ∧
      (1 ≤ (create_function_element "a.py" sampleSrc sampleFn none).start_line ∧
        (create_function_element "a.py" sampleSrc sampleFn none).start_line
          ≤ (create_function_element "a.py" sampleSrc sampleFn none).end_line ∧
        (create_function_element "a.py" sampleSrc sampleFn none).end_line
          ≤ (pySplitlines sampleSrc).length) :=
  ⟨by decide, by decide, by decide,
    c3_line_bounds "a.py" sampleSrc sampleTree _ (by decide) (by decide) (by decide)⟩

/-- C3 counterexample: an empty file is syntactically valid, yet its File
element has `start_line = 1` and `end_line = 0`, so `end_line < start_line`
and `start_line` exceeds the file's 0-line count. -/
theorem c3_empty_file_cex :
    (parse_file "f.py" "" (Node.module [] none)).map (fun e => (e.start_line, e.end_line))
      = [(1, 0)] := by decide

/-- C4: the scorer returns 1, plus one per conditional branch, loop, or
exception-handler clause in the subtree, plus `N-1` per `N`-operand boolean
combination; appending one clause that contains no further counted
construct to a function body raises the score by exactly 1. -/
theorem c4_complexity_formula :
    (∀ node : Node,
        calculate_complexity node = 1 + (branchCount node : Int) + boolOpExtra node)
    ∧ ∀ (fn : String) (fa : Arguments) (fr : Option String) (body : List Node)
        (fl fe : Nat) (fd : Option String) (clause : Node),
        branchCount clause = 1 → boolOpExtra clause = 0 →
        calculate_complexity (Node.functionDef fn fa fr (body ++ [clause]) fl fe fd)
          = calculate_complexity (Node.functionDef fn fa fr body fl fe fd) + 1 := by
  refine ⟨calculate_complexity_char, ?_⟩
  intro fn fa fr body fl fe fd clause h1 h2
  rw [calculate_complexity_char, calculate_complexity_char]
  simp only [branchCount, boolOpExtra, branchCountList_append, boolOpExtraList_append,
    branchCountList, h1, h2, boolOpExtraList]
  push_cast
  ring

/-- C4 witness: appending a bare `if` clause raises the score by exactly 1. -/
theorem c4_complexity_formula_witness :
    branchCount (Node.ifStmt [Node.other []]) = 1 ∧
      boolOpExtra (Node.ifStmt [Node.other []]) = 0 ∧
      calculate_complexity (Node.functionDef "f" emptyArguments none
          ([Node.other []] ++ [Node.ifStmt [Node.other []]]) 1 3 none)
        = calculate_complexity
            (Node.functionDef "f" emptyArguments none [Node.other []] 1 3 none) + 1 :=
  ⟨by decide, by decide,
    c4_complexity_formula.2 "f" emptyArguments none [Node.other []] 1 3 none
      (Node.ifStmt [Node.other []]) (by decide) (by decide)⟩

/-- C5: the amended selector rule.  A file is skipped iff its base name
contains "test" case-insensitively, or one of the markers occurs as a
substring anywhere in the **full path string** (not: equals a path
component — see the counterexample), or the byte size strictly exceeds the
ceiling (so a file exactly at the ceiling is kept). -/
theorem c5_selector_rule (p : PyPath) (size kb : Nat) :
    should_skip_file p size kb = true ↔
      (strContains (pyLower p.name) "test" = true ∨
        (∃ part ∈ (["__pycache__", "venv", ".venv", "env"] : List String),
          strContains p.toStr part = true) ∨
        kb * 1024 < size) := by
  constructor
  · intro h
    unfold should_skip_file at h
    split at h
    · rename_i h1
      exact Or.inl h1
    · split at h
      · rename_i h2
        exact Or.inr (Or.inl (List.any_eq_true.mp h2))
      · split at h
        · rename_i h3
          exact Or.inr (Or.inr h3)
        · simp at h
  · intro h
    unfold should_skip_file
    rcases h with h | h | h
    · simp [h]
    · have h2 : (["__pycache__", "venv", ".venv", "env"] : List String).any
          (fun part => strContains p.toStr part) = true := List.any_eq_true.mpr h
      split
      · rfl
      · simp [h2]
    · split
      · rfl
      · split
        · rfl
        · simp [h]

/-- C5 counterexample: `envelope.py` matches no rule as the spec words them
(no marker equals a path component, the name has no "test", size 0), yet
the code skips it because "env" is a substring of the path string. -/
theorem c5_selector_rule_cex :
    should_skip_file ⟨["envelope.py"]⟩ 0 500 = true ∧
      selectorSpecExcludes ⟨["envelope.py"]⟩ 0 500 = false := by decide

/-- C6: the amended statement.  The function elements of `parse_file` are
exactly one element per class-body method and per `FunctionDef` passing the
shallow top-level check, in that order; a method is named
`<ClassName>.<methodName>` and a top-level function keeps its bare name.
(The original "one element per declaration" fails for nested functions —
see the counterexample.) -/
theorem c6_function_elements (fp src : String) (tree : Node) :
    (parse_file fp src tree).filter (fun e => e.type == "function")
        = (functionDecls tree).map (fun pm => create_function_element fp src pm.2 pm.1)
    ∧ (functionDecls tree).map
          (fun pm => (create_function_element fp src pm.2 pm.1).name)
        = (functionDecls tree).map (fun pm =>
            match pm.1 with
            | some c => c ++ "." ++ Node.name pm.2
            | none => Node.name pm.2) := by
  constructor
  · rw [parse_file_eq]
    rw [List.filter_cons]
    rw [filter_flatMap_nodes]
    simp only [processNode_filter_function]
    rw [functionDecls, map_flatMap_decls]
    simp [file_element_type]
  · exact List.map_congr_left (fun pm _ => function_element_name fp src pm.2 pm.1)

/-- C6 counterexample: a module with a nested function has two
`FunctionDef` declarations but extraction emits exactly one Function
element (for the outer function only). -/
theorem c6_nested_function_cex :
    (Node.walk nestedTree).countP isFunctionDef = 2 ∧
      (parse_file "f.py" nestedSrc nestedTree).countP (fun e => e.type == "function") = 1 ∧
      ((parse_file "f.py" nestedSrc nestedTree).filter
          (fun e => e.type == "function")).map (fun e => e.name) = ["outer"] := by
  decide

/-- C7: the result list is the File element first, then, in breadth-first
tree-discovery order, for each discovered class its Class element
immediately followed by the elements of its direct-body methods in
declaration order, and for each top-level function its element. -/
theorem c7_element_order (fp src : String) (tree : Node) :
    parse_file fp src tree
      = create_file_element fp src tree
          :: (Node.walk tree).flatMap (processNode fp src tree) :=
  parse_file_eq fp src tree

/-- C8: per-file failures are isolated.  A traversal containing one
non-skipped failing file yields exactly the elements of the other files
(zero elements for the failed one) and exactly one extra warning. -/
theorem c8_failure_isolation (kb : Nat) (files₁ files₂ : List RepoFile) (bad : RepoFile)
    (hskip : should_skip_file bad.path bad.size kb = false)
    (hbad : bad.input = FileInput.parseError ∨ bad.input = FileInput.readError) :
    (parse_repository kb (files₁ ++ bad :: files₂)).1
        = (parse_repository kb files₁).1 ++ (parse_repository kb files₂).1
      ∧ (parse_repository kb (files₁ ++ bad :: files₂)).2.length
        = (parse_repository kb files₁).2.length + 1
            + (parse_repository kb files₂).2.length := by
  obtain ⟨hel, hwarn⟩ := parse_repository_failed kb bad hskip hbad
  have happ := parse_repository_append kb files₁ (bad :: files₂)
  have hcons := parse_repository_cons kb bad files₂
  constructor
  · rw [happ]
    simp only [hcons, hel]
    simp
  · rw [happ]
    simp only [hcons]
    simp [List.length_append, hwarn]
    omega

/-- C8 witness: a failing file between two good files. -/
theorem c8_failure_isolation_witness :
    should_skip_file badFile.path badFile.size 500 = false ∧
      (badFile.input = FileInput.parseError ∨ badFile.input = FileInput.readError) ∧
      ((parse_repository 500 ([goodFile1] ++ badFile :: [goodFile2])).1
          = (parse_repository 500 [goodFile1]).1 ++ (parse_repository 500 [goodFile2]).1
        ∧ (parse_repository 500 ([goodFile1] ++ badFile :: [goodFile2])).2.length
          = (parse_repository 500 [goodFile1]).2.length + 1
              + (parse_repository 500 [goodFile2]).2.length) :=
  ⟨by decide, Or.inl rfl,
    c8_failure_isolation 500 [goodFile1] [goodFile2] badFile (by decide) (Or.inl rfl)⟩

/-- C9: extraction is deterministic.  Both the single-file and the
repository entry points are pure functions of their inputs, so re-running
them on the same path, source text, tree and configuration yields the same
list, in content and order. -/
theorem c9_deterministic (fp src : String) (tree : Node) (kb : Nat)
    (files : List RepoFile) :
    parse_file fp src tree = parse_file fp src tree ∧
      parse_repository kb files = parse_repository kb files := ⟨rfl, rfl⟩

/-- C10: the rendered signature uses only the plain positional-or-keyword
parameters (`node.args.args`), each as `name` or `name: annotation`, plus
the return annotation; positional-only parameters, `*args`, keyword-only
parameters, `**kwargs` and defaults neither appear in it nor affect it. -/
theorem c10_signature_plain_args (fp src fn : String) (po pargs : List Arg)
    (va : Option Arg) (ko : List Arg) (kwd : List (Option String)) (kw : Option Arg)
    (ds : List String) (ret : Option String) (body : List Node) (l e : Nat)
    (d pc : Option String) :
    (create_function_element fp src
        (Node.functionDef fn ⟨po, pargs, va, ko, kwd, kw, ds⟩ ret body l e d) pc).signature
      = some ("def " ++ fn ++ "("
          ++ String.intercalate ", " (pargs.map (fun a =>
              a.arg ++ (match a.ann with | some t => ": " ++ t | none => "")))
          ++ ")" ++ (match ret with | some r => " -> " ++ r | none => "") ++ ":")
    ∧ ∀ (po' : List Arg) (va' : Option Arg) (ko' : List Arg)
        (kwd' : List (Option String)) (kw' : Option Arg) (ds' : List String),
        (create_function_element fp src
            (Node.functionDef fn ⟨po, pargs, va, ko, kwd, kw, ds⟩ ret body l e d) pc).signature
          = (create_function_element fp src
              (Node.functionDef fn ⟨po', pargs, va', ko', kwd', kw', ds'⟩ ret body l e d)
              pc).signature := by
  constructor
  · cases ret <;> rfl
  · intro po' va' ko' kwd' kw' ds'
    rfl

